import Mathlib

/-!
Shallow embedding of the scrape-and-reconcile pipeline of the
AllTheFreeGames repository (src/util.py, src/crawler.py, src/steam.py,
src/gog.py, src/epic.py, src/scraper_utils.py, src/newsletter_new_games.py,
src/mail_counter.py), together with theorems settling the frozen claims
about its specification.

Machine strings are Lean `String`, Firestore timestamps are `Nat`,
a Firestore collection is an association list from document id to record.
-/

namespace AllTheFreeGames

/-- One extracted candidate, the dict literal built by every extractor:
`{title, url, imageUrl}` (crawler.py line 190, steam.py lines 239-243,
gog.py line 174). -/
structure Candidate where
  title : String
  url : String
  imageUrl : String
deriving DecidableEq, Repr

/-- One persisted Firestore document: the candidate fields plus the
`createdAt` timestamp added on first persistence (crawler.py line 225). -/
structure GameRecord where
  title : String
  url : String
  imageUrl : String
  createdAt : Nat
deriving DecidableEq, Repr

/-- A source collection: Firestore documents keyed by id. -/
abbrev Store := List (String × GameRecord)

/-- The document ids of a collection, in iteration order. -/
def storeKeys (s : Store) : List String := s.map Prod.fst

/-- Firestore `collection_ref.document(id).set(record)`: overwrite the
document with this id, or create it if absent. -/
def setDoc : Store → String → GameRecord → Store
  | [], id, r => [(id, r)]
  | p :: rest, id, r => if p.1 = id then (id, r) :: rest else p :: setDoc rest id r

/-- Firestore `collection_ref.document(id).delete()`. -/
def deleteDoc : Store → String → Store
  | [], _ => []
  | p :: rest, id => if p.1 = id then deleteDoc rest id else p :: deleteDoc rest id

/-- `del existing_games[game_id]` on the persisted-set working copy,
kept as a list of ids (crawler.py line 231). -/
def eraseId : List String → String → List String
  | [], _ => []
  | x :: xs, id => if x = id then xs else x :: eraseId xs id

/-- Membership of the character class `[a-zA-Z0-9_-]` of the regex in
util.py line 26 (and its copy in epic.py line 28). -/
def isAllowedChar (c : Char) : Bool :=
  (('a' ≤ c && c ≤ 'z') || ('A' ≤ c && c ≤ 'Z') || ('0' ≤ c && c ≤ '9')
    || c = '_' || c = '-')

/-- Character-level worker for `sanitize`.  The regex quantifier `+` makes
`re.sub` replace each maximal run of characters outside the class with a
single underscore; the flag records whether the previous character was part
of such a run. -/
def sanitizeAux : Bool → List Char → List Char
  | _, [] => []
  | prevBad, c :: rest =>
    if isAllowedChar c then c :: sanitizeAux false rest
    else if prevBad then sanitizeAux true rest
    else '_' :: sanitizeAux true rest

/-- util.py `sanitize`: `re.sub(r'[^a-zA-Z0-9_-]+', '_', text)`. -/
def sanitize (text : String) : String := ⟨sanitizeAux false text.data⟩

/-- Python `str.replace(' ', '_')`. -/
def replaceSpaceUnderscore (s : String) : String :=
  ⟨s.data.map (fun c => if c = ' ' then '_' else c)⟩

/-- Python `str.lower` (ASCII case, which is all the embedding needs). -/
def lowerStr (s : String) : String := ⟨s.data.map Char.toLower⟩

/-- Does the second list start with the first one? -/
def startsWith : List Char → List Char → Bool
  | [], _ => true
  | _ :: _, [] => false
  | c :: cs, d :: ds => c = d && startsWith cs ds

/-- The lazy group `(.+?)(?:\?|$)`: the shortest nonempty run of
non-newline characters that is followed by a question mark or by the end
of the string. -/
def captureLazy : List Char → Option (List Char)
  | [] => none
  | c :: rest =>
    if c = '\n' then none
    else
      match rest with
      | [] => some [c]
      | d :: _ =>
        if d = '?' then some [c]
        else (captureLazy rest).map (fun t => c :: t)

/-- `re.search(pat ++ '(.+?)(?:\?|$)', url)` for a literal prefix `pat`:
try each start position from the left, with fallback to later positions
when the lazy capture cannot complete. -/
def searchPrefixCapture (pat : List Char) : List Char → Option (List Char)
  | [] => if pat = [] then none else none
  | s@(_ :: rest) =>
    if startsWith pat s then
      match captureLazy (s.drop pat.length) with
      | some cap => some cap
      | none => searchPrefixCapture pat rest
    else searchPrefixCapture pat rest

/-- crawler.py lines 213-220: id of a Prime Gaming candidate.  The regex
is `/games/(.+?)(?:\?|$)`; on a match the captured slug is sanitized,
otherwise the sanitized lowercased title with spaces replaced by
underscores is used. -/
def prime_game_id (c : Candidate) : String :=
  match searchPrefixCapture ("/games/".data) c.url.data with
  | some slug => sanitize ⟨slug⟩
  | none => sanitize (lowerStr (replaceSpaceUnderscore c.title))

/-- gog.py lines 197-199: same shape as the Prime id but with pattern
`/giveaway/(.+?)(?:\?|$)`. -/
def gog_game_id (c : Candidate) : String :=
  match searchPrefixCapture ("/giveaway/".data) c.url.data with
  | some slug => sanitize ⟨slug⟩
  | none => sanitize (lowerStr (replaceSpaceUnderscore c.title))

/-- The capture of steam.py regex `/app/\d+/([^/]+)/` tried at one start
position: `/app/`, then at least one digit, a slash, the maximal nonempty
run without a slash, and a terminating slash. -/
def steamSlugAt (cs : List Char) : Option (List Char) :=
  if startsWith ("/app/".data) cs then
    let rest := cs.drop 5
    let digs := rest.takeWhile Char.isDigit
    if digs = [] then none
    else
      match rest.drop digs.length with
      | '/' :: rest2 =>
        let cap := rest2.takeWhile (fun c => c ≠ '/')
        if cap = [] then none
        else
          match rest2.drop cap.length with
          | '/' :: _ => some cap
          | _ => none
      | _ => none
  else none

/-- `re.search(r'/app/\d+/([^/]+)/', url)`: leftmost start position at
which the whole pattern matches. -/
def searchSteamSlug : List Char → Option (List Char)
  | [] => none
  | s@(_ :: rest) =>
    match steamSlugAt s with
    | some cap => some cap
    | none => searchSteamSlug rest

/-- steam.py lines 272-278: id of a Steam candidate.  The captured slug is
used without sanitizing; the fallback is the sanitized lowercased title
with spaces replaced by underscores. -/
def steam_game_id (c : Candidate) : String :=
  match searchSteamSlug c.url.data with
  | some slug => ⟨slug⟩
  | none => sanitize (lowerStr (replaceSpaceUnderscore c.title))

/-- Python `str.rstrip('/')`. -/
def rstripSlash (s : List Char) : List Char :=
  (s.reverse.dropWhile (fun c => c = '/')).reverse

/-- Python `s.split('/')[-1]`: the suffix after the last slash (the whole
string when it has no slash, empty when it ends with one). -/
def lastSlashComponent (s : List Char) : List Char :=
  ((s.reverse.takeWhile (fun c => c ≠ '/'))).reverse

/-- epic.py lines 204-208: id of the Epic candidate.  When the url is
truthy and differs from the literal `"No URL"` the id is the last path
component of the url with trailing slashes stripped; only otherwise does
it fall back to the sanitized lowercased title with spaces replaced by
underscores. -/
def epic_game_id (title url : String) : String :=
  if url ≠ "" ∧ url ≠ "No URL" then ⟨lastSlashComponent (rstripSlash url.data)⟩
  else sanitize (replaceSpaceUnderscore (lowerStr title))

/-- The invalid-record test of crawler.py lines 205-209, steam.py lines
264-268 and gog.py lines 189-193: all three fields at their sentinel. -/
def isInvalid (c : Candidate) : Bool :=
  c.title = "Unknown Title" && c.url = "No URL Found" && c.imageUrl = "No Image Found"

/-- Ids of the candidates that survive the sentinel filter. -/
def validIds (gid : Candidate → String) (cands : List Candidate) : List String :=
  (cands.filter (fun c => !isInvalid c)).map gid

/-- State of the add-or-update loop: the live collection, the
persisted-set working copy (`existing_games` keys) and `notify_games`. -/
structure LoopSt where
  store : Store
  working : List String
  notify : List GameRecord
deriving DecidableEq, Repr

/-- One iteration of the add-or-update loop of crawler.py lines 203-231
(identically steam.py lines 262-287, gog.py lines 187-210): skip
all-sentinel candidates; a candidate whose id is not in the working copy
is persisted with a fresh `createdAt` and queued for notification; a
candidate whose id is in the working copy only removes that id from the
working copy. -/
def stepCandidate (gid : Candidate → String) (now : Nat) (st : LoopSt) (c : Candidate) :
    LoopSt :=
  if isInvalid c then st
  else
    let id := gid c
    if id ∈ st.working then { st with working := eraseId st.working id }
    else
      { st with
          store := setDoc st.store id ⟨c.title, c.url, c.imageUrl, now⟩,
          notify := st.notify ++ [⟨c.title, c.url, c.imageUrl, now⟩] }

/-- The whole add-or-update loop over the extracted batch. -/
def runCandidates (gid : Candidate → String) (now : Nat) (st : LoopSt)
    (cands : List Candidate) : LoopSt :=
  cands.foldl (stepCandidate gid now) st

/-- Result of one reconciliation pass. -/
structure ReconcileResult where
  store : Store
  notify : List GameRecord
  removed : List String
deriving DecidableEq, Repr

/-- One reconciliation pass (crawler.py lines 195-236): snapshot the
collection into the working copy, run the add-or-update loop, then delete
every leftover working-copy id from the collection. -/
def reconcile (gid : Candidate → String) (now : Nat) (store : Store)
    (cands : List Candidate) : ReconcileResult :=
  let st := runCandidates gid now ⟨store, storeKeys store, []⟩ cands
  ⟨st.working.foldl deleteDoc st.store, st.notify, st.working⟩


/-- crawler.py lines 59-89 `scroll_until_stable`, abstracted over the page:
`counts i` is the element count the page reports at the i-th loop
iteration (0-indexed).  The worker carries `previous_count`, the number of
iterations already executed, and the remaining iterations of
`range(max_scrolls)`; it returns the number of iterations executed, where
the iteration that observes a non-increase still counts as executed. -/
def scroll_until_stable_loop (counts : Nat → Nat) : Nat → Nat → Nat → Nat
  | _, i, 0 => i
  | prev, i, fuel + 1 =>
    if counts i = prev then i + 1
    else scroll_until_stable_loop counts (counts i) (i + 1) fuel

/-- Number of iterations the crawler.py scroll loop executes: previous
count starts at 0 and the loop body runs at most `max_scrolls` times. -/
def scroll_until_stable_iters (counts : Nat → Nat) (maxScrolls : Nat) : Nat :=
  scroll_until_stable_loop counts 0 0 maxScrolls

/-- scraper_utils.py lines 278-308 `natural_scroll`: scroll first, then
count; keep going while the count strictly increases. -/
def natural_scroll_loop (counts : Nat → Nat) : Nat → Nat → Nat → Nat
  | _, i, 0 => i
  | prev, i, fuel + 1 =>
    if prev < counts i then natural_scroll_loop counts (counts i) (i + 1) fuel
    else i + 1

/-- Number of iterations the natural_scroll loop executes. -/
def natural_scroll_iters (counts : Nat → Nat) (maxScrolls : Nat) : Nat :=
  natural_scroll_loop counts 0 0 maxScrolls

/-- The previous-count value held when iteration j starts, for a loop
whose observations are `counts`: 0 before the first iteration, the last
observation afterwards. -/
def scrollPrev (counts : Nat → Nat) : Nat → Nat
  | 0 => 0
  | j + 1 => counts j

/-- How one steam.py run went: the page showed the literal
`0 results match your search`, navigation itself raised (the page never
loaded), the `.search_result_row` selector never appeared within the
timeout, or the rows loaded and were extracted into candidates. -/
inductive SteamFetch where
  | zeroResults
  | navigationFailed
  | resultsTimeout
  | loaded (rows : List Candidate)
deriving DecidableEq, Repr

/-- Outcome of one steam.py run: the resulting collection, the reason
recorded in the `scrape_status/steam` document when
`delete_all_firestore_entries` ran (none when it did not), whether the
`Steam Scraper Error` email of the generic handler went out, and
`notify_games`. -/
structure SteamRun where
  store : Store
  statusReason : Option String
  errorEmail : Bool
  notify : List GameRecord
deriving DecidableEq, Repr

/-- steam.py lines 79-103 `delete_all_firestore_entries`: empty the
collection and record the reason in the status document. -/
def delete_all_firestore_entries (reason : String) : Store × Option String :=
  ([], some reason)

/-- steam.py lines 123-295 `scrape_steam`, reduced to its Firestore and
email effects.  A confirmed zero-results page and an empty extracted
batch call `delete_all_firestore_entries`.  A navigation failure, and
likewise a results selector that never appears, propagate to the generic
handler at line 297 (the bare `except TimeoutError` at line 188 names the
builtin, which Playwright's timeout is not, so the wipe it guards never
runs): the store is untouched and the error email is sent.  Otherwise the
batch is reconciled against the collection with the steam id
derivation. -/
def scrape_steam (fetch : SteamFetch) (now : Nat) (store : Store) : SteamRun :=
  match fetch with
  | SteamFetch.zeroResults =>
    let d := delete_all_firestore_entries "0 results match your search."
    ⟨d.1, d.2, false, []⟩
  | SteamFetch.navigationFailed =>
    ⟨store, none, true, []⟩
  | SteamFetch.resultsTimeout =>
    ⟨store, none, true, []⟩
  | SteamFetch.loaded rows =>
    if rows = [] then
      let d := delete_all_firestore_entries "No games data extracted"
      ⟨d.1, d.2, false, []⟩
    else
      let r := reconcile steam_game_id now store rows
      ⟨r.store, none, false, r.notify⟩

/-- util.py lines 34-51 `html_game_list`: the HTML unordered list built
for notification emails. -/
def html_game_list (games : List GameRecord) : String :=
  "<ul>"
    ++ String.join (games.map (fun g =>
      "\n            <li>\n                <a href=\"" ++ g.url ++ "\">" ++ g.title
        ++ "</a><br>\n                <img src=\"" ++ g.imageUrl ++ "\" alt=\"" ++ g.title
        ++ "\" width=\"200\">\n            </li>\n        "))
    ++ "</ul>"

/-- A dispatched email: subject and HTML body. -/
structure Email where
  subject : String
  content : String
deriving DecidableEq, Repr

/-- How gog.py reached its reconcile step: the GiveawayGrid selector
never appeared (the handler re-raises), or the cards were extracted. -/
inductive GogFetch where
  | giveawayTimeout
  | loaded (cards : List Candidate)
deriving DecidableEq, Repr

/-- Outcome of one gog.py run: resulting collection, `notify_games`, and
the emails sent, in order. -/
structure GogRun where
  store : Store
  notify : List GameRecord
  emails : List Email
deriving DecidableEq, Repr

/-- gog.py lines 84-254 `scrape_gog`, reduced to its Firestore and email
effects.  `screenshotFails` models an exception thrown between the
Firestore update and the success-path notification email (for example the
final-screenshot call).  The success path emails the new games once more
than the cleanup block does: the cleanup (`finally`) re-sends the
notification whenever `notify_games` is nonempty, and it also runs on the
error path. -/
def scrape_gog (fetch : GogFetch) (screenshotFails : Bool) (now : Nat) (store : Store) :
    GogRun :=
  match fetch with
  | GogFetch.giveawayTimeout =>
    ⟨store, [], [⟨"GOG Scraper Error", "GOG scraper encountered an error"⟩]⟩
  | GogFetch.loaded cards =>
    let r := reconcile gog_game_id now store cards
    if screenshotFails then
      ⟨r.store, r.notify,
        ⟨"GOG Scraper Error", "GOG scraper encountered an error"⟩ ::
          (if r.notify = [] then []
           else [⟨"GOG Scraper Notification", html_game_list r.notify⟩])⟩
    else
      ⟨r.store, r.notify,
        (if r.notify = [] then []
         else [⟨"GOG Free Games Scraper Notification", html_game_list r.notify⟩])
          ++ (if r.notify = [] then []
              else [⟨"GOG Scraper Notification", html_game_list r.notify⟩])⟩

/-- One confirmed subscriber with frequency newgame or both, as returned
by the query in newsletter_new_games.py lines 220-223; `smtpOk` records
whether the SMTP dispatch for this recipient would succeed. -/
structure Subscriber where
  email : String
  smtpOk : Bool
deriving DecidableEq, Repr

/-- mail_counter.py lines 59-84 `MailCounter.increment` with monthly
limit 3000: returns the number of emails that may be sent, the updated
counter, and whether all requested emails fit. -/
def mail_counter_increment (current requested : Nat) : Nat × Nat × Bool :=
  let remaining := 3000 - current
  let canSend := min requested remaining
  if canSend = 0 then (0, current, false)
  else if canSend < requested then (canSend, current + canSend, false)
  else (requested, current + requested, true)

/-- newsletter_new_games.py lines 89-145 `build_new_games_list` for one
collection: documents with `createdAt` strictly after the checkpoint
whose three display fields are truthy. -/
def build_new_games_pick (lastRun : Nat) (s : Store) : List GameRecord :=
  (s.map Prod.snd).filter
    (fun r => decide (lastRun < r.createdAt)
      && !(r.title = "") && !(r.url = "") && !(r.imageUrl = ""))

/-- Outcome of one newsletter run: the checkpoint after the run, how many
emails were actually handed to SMTP, how many sends were attempted, and
the mail counter afterwards. -/
structure NewsletterResult where
  lastRun : Nat
  dispatched : Nat
  attempted : Nat
  counter : Nat
deriving DecidableEq, Repr

/-- newsletter_new_games.py lines 201-271 `run_new_games_newsletter`:
read the checkpoint, build the delta from it, bail out when the delta is
empty or the monthly counter admits nothing, truncate the subscriber list
to the admitted count, attempt one send per remaining subscriber
(`send_new_games_email` swallows missing credentials and SMTP failures),
and write the checkpoint whenever the loop body ran at least once. -/
def run_new_games_newsletter (oldLastRun now : Nat) (prime epic gog : Store)
    (subs : List Subscriber) (credsOk : Bool) (counter : Nat) : NewsletterResult :=
  let pg := build_new_games_pick oldLastRun prime
  let eg := build_new_games_pick oldLastRun epic
  let gg := build_new_games_pick oldLastRun gog
  if pg = [] ∧ eg = [] ∧ gg = [] then ⟨oldLastRun, 0, 0, counter⟩
  else
    let inc := mail_counter_increment counter subs.length
    if inc.1 = 0 then ⟨oldLastRun, 0, 0, inc.2.1⟩
    else
      let subs2 := if inc.2.2 then subs else subs.take inc.1
      let dispatched := (subs2.filter (fun s => credsOk && s.smtpOk)).length
      if subs2 ≠ [] then ⟨now, dispatched, subs2.length, inc.2.1⟩
      else ⟨oldLastRun, dispatched, 0, inc.2.1⟩

/-- No two adjacent characters both fall outside `[a-zA-Z0-9_-]`: under
this condition the regex replacement degenerates to a per-character map. -/
def noAdjacentDisallowed : List Char → Bool
  | [] => true
  | [_] => true
  | a :: b :: rest => (isAllowedChar a || isAllowedChar b) && noAdjacentDisallowed (b :: rest)

/-- The record written and queued for a candidate. -/
def mkRecord (now : Nat) (c : Candidate) : GameRecord := ⟨c.title, c.url, c.imageUrl, now⟩

/-- `WF st`: every id still in the working copy names a live document. -/
def WF (st : LoopSt) : Prop := ∀ x ∈ st.working, x ∈ storeKeys st.store

@[simp] theorem storeKeys_nil : storeKeys [] = [] := rfl

@[simp] theorem storeKeys_cons (p : String × GameRecord) (s : Store) :
    storeKeys (p :: s) = p.1 :: storeKeys s := rfl

theorem setDoc_cons (p : String × GameRecord) (rest : Store) (id : String) (r : GameRecord) :
    setDoc (p :: rest) id r = if p.1 = id then (id, r) :: rest else p :: setDoc rest id r := rfl

theorem deleteDoc_cons (p : String × GameRecord) (rest : Store) (id : String) :
    deleteDoc (p :: rest) id = if p.1 = id then deleteDoc rest id else p :: deleteDoc rest id := rfl

theorem eraseId_cons (y : String) (ys : List String) (id : String) :
    eraseId (y :: ys) id = if y = id then ys else y :: eraseId ys id := rfl

theorem mem_storeKeys_setDoc (s : Store) (id : String) (r : GameRecord) (x : String) :
    x ∈ storeKeys (setDoc s id r) ↔ x ∈ storeKeys s ∨ x = id := by
  induction s with
  | nil => simp [setDoc]
  | cons p rest ih =>
    by_cases h : p.1 = id
    · rw [setDoc_cons, if_pos h]
      simp only [storeKeys_cons, List.mem_cons, h]
      tauto
    · rw [setDoc_cons, if_neg h]
      simp only [storeKeys_cons, List.mem_cons, ih]
      tauto

theorem mem_eraseId_subset {l : List String} {id x : String} (h : x ∈ eraseId l id) :
    x ∈ l := by
  induction l with
  | nil => simp [eraseId] at h
  | cons y ys ih =>
    by_cases hy : y = id
    · rw [eraseId_cons, if_pos hy] at h
      exact List.mem_cons_of_mem _ h
    · rw [eraseId_cons, if_neg hy] at h
      rcases List.mem_cons.mp h with h | h
      · simp [h]
      · exact List.mem_cons_of_mem _ (ih h)

theorem nodup_eraseId {l : List String} (id : String) (h : l.Nodup) :
    (eraseId l id).Nodup := by
  induction l with
  | nil => simp [eraseId]
  | cons y ys ih =>
    rcases List.nodup_cons.mp h with ⟨hy, hys⟩
    by_cases hyid : y = id
    · rw [eraseId_cons, if_pos hyid]
      exact hys
    · rw [eraseId_cons, if_neg hyid]
      exact List.nodup_cons.mpr ⟨fun hc => hy (mem_eraseId_subset hc), ih hys⟩

theorem mem_eraseId {l : List String} (hl : l.Nodup) (id x : String) :
    x ∈ eraseId l id ↔ x ∈ l ∧ x ≠ id := by
  induction l with
  | nil => simp [eraseId]
  | cons y ys ih =>
    rcases List.nodup_cons.mp hl with ⟨hy, hys⟩
    by_cases hyid : y = id
    · subst hyid
      rw [eraseId_cons, if_pos rfl]
      constructor
      · intro hx
        exact ⟨List.mem_cons_of_mem _ hx, fun hxy => hy (hxy ▸ hx)⟩
      · rintro ⟨hx, hne⟩
        rcases List.mem_cons.mp hx with h | h
        · exact absurd h hne
        · exact h
    · rw [eraseId_cons, if_neg hyid]
      simp only [List.mem_cons, ih hys]
      constructor
      · rintro (h | ⟨h1, h2⟩)
        · exact ⟨Or.inl h, h ▸ hyid⟩
        · exact ⟨Or.inr h1, h2⟩
      · rintro ⟨h | h, hne⟩
        · exact Or.inl h
        · exact Or.inr ⟨h, hne⟩

theorem mem_storeKeys_deleteDoc (s : Store) (id x : String) :
    x ∈ storeKeys (deleteDoc s id) ↔ x ∈ storeKeys s ∧ x ≠ id := by
  induction s with
  | nil => simp [deleteDoc]
  | cons p rest ih =>
    by_cases h : p.1 = id
    · rw [deleteDoc_cons, if_pos h]
      simp only [storeKeys_cons, List.mem_cons, ih, h]
      tauto
    · rw [deleteDoc_cons, if_neg h]
      simp only [storeKeys_cons, List.mem_cons, ih]
      constructor
      · rintro (h1 | ⟨h1, h2⟩)
        · exact ⟨Or.inl h1, h1 ▸ h⟩
        · exact ⟨Or.inr h1, h2⟩
      · tauto

theorem mem_storeKeys_foldl_deleteDoc (ws : List String) (s : Store) (x : String) :
    x ∈ storeKeys (ws.foldl deleteDoc s) ↔ x ∈ storeKeys s ∧ x ∉ ws := by
  induction ws generalizing s with
  | nil => simp
  | cons w ws ih =>
    simp only [List.foldl_cons, ih, mem_storeKeys_deleteDoc, List.mem_cons]
    tauto

theorem nodup_storeKeys_setDoc (s : Store) (id : String) (r : GameRecord)
    (h : (storeKeys s).Nodup) : (storeKeys (setDoc s id r)).Nodup := by
  induction s with
  | nil => simp [setDoc]
  | cons p rest ih =>
    rcases List.nodup_cons.mp h with ⟨hp, hrest⟩
    by_cases he : p.1 = id
    · rw [setDoc_cons, if_pos he]
      subst he
      exact List.nodup_cons.mpr ⟨hp, hrest⟩
    · rw [setDoc_cons, if_neg he]
      rw [storeKeys_cons]
      refine List.nodup_cons.mpr ⟨?_, ih hrest⟩
      intro hc
      rcases (mem_storeKeys_setDoc rest id r p.1).mp hc with h1 | h1
      · exact hp h1
      · exact he h1

theorem nodup_storeKeys_deleteDoc (s : Store) (id : String)
    (h : (storeKeys s).Nodup) : (storeKeys (deleteDoc s id)).Nodup := by
  induction s with
  | nil => simp [deleteDoc]
  | cons p rest ih =>
    rcases List.nodup_cons.mp h with ⟨hp, hrest⟩
    by_cases he : p.1 = id
    · rw [deleteDoc_cons, if_pos he]
      exact ih hrest
    · rw [deleteDoc_cons, if_neg he, storeKeys_cons]
      refine List.nodup_cons.mpr ⟨?_, ih hrest⟩
      intro hc
      exact hp ((mem_storeKeys_deleteDoc rest id p.1).mp hc).1

theorem nodup_storeKeys_foldl_deleteDoc (ws : List String) (s : Store)
    (h : (storeKeys s).Nodup) : (storeKeys (ws.foldl deleteDoc s)).Nodup := by
  induction ws generalizing s with
  | nil => simpa
  | cons w ws ih => exact ih _ (nodup_storeKeys_deleteDoc s w h)

theorem mem_setDoc_of_ne (s : Store) (id : String) (r : GameRecord)
    {x : String} {q : GameRecord} (hx : (x, q) ∈ s) (hne : x ≠ id) :
    (x, q) ∈ setDoc s id r := by
  induction s with
  | nil => simp at hx
  | cons p rest ih =>
    rcases List.mem_cons.mp hx with h | h
    · have hp1 : p.1 ≠ id := by rw [← h]; exact hne
      rw [setDoc_cons, if_neg hp1]
      exact h ▸ List.mem_cons_self _ _
    · by_cases he : p.1 = id
      · rw [setDoc_cons, if_pos he]
        exact List.mem_cons_of_mem _ h
      · rw [setDoc_cons, if_neg he]
        exact List.mem_cons_of_mem _ (ih h)

theorem mem_deleteDoc_of_ne (s : Store) (id : String)
    {x : String} {q : GameRecord} (hx : (x, q) ∈ s) (hne : x ≠ id) :
    (x, q) ∈ deleteDoc s id := by
  induction s with
  | nil => simp at hx
  | cons p rest ih =>
    rcases List.mem_cons.mp hx with h | h
    · have hp1 : p.1 ≠ id := by rw [← h]; exact hne
      rw [deleteDoc_cons, if_neg hp1]
      exact h ▸ List.mem_cons_self _ _
    · by_cases he : p.1 = id
      · rw [deleteDoc_cons, if_pos he]
        exact ih h
      · rw [deleteDoc_cons, if_neg he]
        exact List.mem_cons_of_mem _ (ih h)

theorem mem_foldl_deleteDoc_of_not_mem (ws : List String) (s : Store)
    {x : String} {q : GameRecord} (hx : (x, q) ∈ s) (hw : x ∉ ws) :
    (x, q) ∈ ws.foldl deleteDoc s := by
  induction ws generalizing s with
  | nil => simpa
  | cons w ws ih =>
    simp only [List.mem_cons, not_or] at hw
    exact ih _ (mem_deleteDoc_of_ne s w hx hw.1) hw.2


@[simp] theorem validIds_nil (gid : Candidate → String) : validIds gid [] = [] := rfl

theorem validIds_cons (gid : Candidate → String) (c : Candidate) (cs : List Candidate) :
    validIds gid (c :: cs) =
      if isInvalid c then validIds gid cs else gid c :: validIds gid cs := by
  by_cases h : isInvalid c <;> simp [validIds, List.filter_cons, h]

@[simp] theorem runCandidates_nil (gid : Candidate → String) (now : Nat) (st : LoopSt) :
    runCandidates gid now st [] = st := rfl

theorem runCandidates_cons (gid : Candidate → String) (now : Nat) (st : LoopSt)
    (c : Candidate) (cs : List Candidate) :
    runCandidates gid now st (c :: cs) =
      runCandidates gid now (stepCandidate gid now st c) cs := rfl

theorem stepCandidate_invalid (gid : Candidate → String) (now : Nat) (st : LoopSt)
    {c : Candidate} (h : isInvalid c = true) : stepCandidate gid now st c = st := by
  simp [stepCandidate, h]

theorem stepCandidate_match (gid : Candidate → String) (now : Nat) (st : LoopSt)
    {c : Candidate} (h : isInvalid c = false) (hm : gid c ∈ st.working) :
    stepCandidate gid now st c = { st with working := eraseId st.working (gid c) } := by
  simp [stepCandidate, h, hm]

theorem stepCandidate_add (gid : Candidate → String) (now : Nat) (st : LoopSt)
    {c : Candidate} (h : isInvalid c = false) (hm : gid c ∉ st.working) :
    stepCandidate gid now st c =
      { st with
          store := setDoc st.store (gid c) (mkRecord now c),
          notify := st.notify ++ [mkRecord now c] } := by
  simp [stepCandidate, h, hm, mkRecord]

/-- Working-copy membership after the loop: an id survives iff it was in
the working copy and no valid candidate carries it. -/
theorem mem_working_runCandidates (gid : Candidate → String) (now : Nat)
    (cands : List Candidate) (st : LoopSt) (hw : st.working.Nodup) (x : String) :
    x ∈ (runCandidates gid now st cands).working ↔
      x ∈ st.working ∧ x ∉ validIds gid cands := by
  induction cands generalizing st with
  | nil => simp
  | cons c cs ih =>
    rw [runCandidates_cons]
    by_cases hc : isInvalid c
    · rw [stepCandidate_invalid gid now st hc, validIds_cons, if_pos hc]
      exact ih st hw
    · rw [validIds_cons, if_neg hc]
      by_cases hm : gid c ∈ st.working
      · rw [stepCandidate_match gid now st (Bool.not_eq_true _ ▸ by simpa using hc) hm]
        rw [ih _ (nodup_eraseId _ hw)]
        simp only [mem_eraseId hw, List.mem_cons]
        constructor
        · rintro ⟨⟨h1, h2⟩, h3⟩
          exact ⟨h1, by simp [h2, h3]⟩
        · rintro ⟨h1, h2⟩
          simp only [not_or] at h2
          exact ⟨⟨h1, h2.1⟩, h2.2⟩
      · rw [stepCandidate_add gid now st (by simpa using hc) hm]
        have hiter := ih { st with
            store := setDoc st.store (gid c) (mkRecord now c),
            notify := st.notify ++ [mkRecord now c] } hw
        rw [hiter]
        simp only [List.mem_cons, not_or]
        constructor
        · rintro ⟨h1, h2⟩
          exact ⟨h1, fun he => hm (he ▸ h1), h2⟩
        · rintro ⟨h1, _, h3⟩
          exact ⟨h1, h3⟩

/-- The working copy stays duplicate-free through the loop. -/
theorem nodup_working_runCandidates (gid : Candidate → String) (now : Nat)
    (cands : List Candidate) (st : LoopSt) (hw : st.working.Nodup) :
    (runCandidates gid now st cands).working.Nodup := by
  induction cands generalizing st with
  | nil => simpa
  | cons c cs ih =>
    rw [runCandidates_cons]
    by_cases hc : isInvalid c
    · rw [stepCandidate_invalid gid now st hc]; exact ih st hw
    · by_cases hm : gid c ∈ st.working
      · rw [stepCandidate_match gid now st (by simpa using hc) hm]
        exact ih _ (nodup_eraseId _ hw)
      · rw [stepCandidate_add gid now st (by simpa using hc) hm]
        exact ih _ hw

/-- Collection membership after the loop: an id is a key iff it was a key
before or some valid candidate carries it (assuming the working copy only
names live documents, as it does when it is the snapshot of the store). -/
theorem mem_storeKeys_runCandidates (gid : Candidate → String) (now : Nat)
    (cands : List Candidate) (st : LoopSt) (hwf : WF st) (x : String) :
    x ∈ storeKeys (runCandidates gid now st cands).store ↔
      x ∈ storeKeys st.store ∨ x ∈ validIds gid cands := by
  induction cands generalizing st with
  | nil => simp
  | cons c cs ih =>
    rw [runCandidates_cons]
    by_cases hc : isInvalid c
    · rw [stepCandidate_invalid gid now st hc, validIds_cons, if_pos hc]
      exact ih st hwf
    · rw [validIds_cons, if_neg hc]
      by_cases hm : gid c ∈ st.working
      · rw [stepCandidate_match gid now st (by simpa using hc) hm]
        have hwf2 : WF { st with working := eraseId st.working (gid c) } := by
          intro y hy
          exact hwf y (mem_eraseId_subset hy)
        rw [ih _ hwf2]
        simp only [List.mem_cons]
        constructor
        · rintro (h1 | h2)
          · exact Or.inl h1
          · exact Or.inr (Or.inr h2)
        · rintro (h1 | h2 | h3)
          · exact Or.inl h1
          · exact Or.inl (h2 ▸ hwf _ hm)
          · exact Or.inr h3
      · rw [stepCandidate_add gid now st (by simpa using hc) hm]
        have hwf2 : WF { st with
            store := setDoc st.store (gid c) (mkRecord now c),
            notify := st.notify ++ [mkRecord now c] } := by
          intro y hy
          exact (mem_storeKeys_setDoc _ _ _ y).mpr (Or.inl (hwf y hy))
        rw [ih _ hwf2]
        simp only [mem_storeKeys_setDoc, List.mem_cons]
        tauto


/-- Notification queue after the loop, when the valid candidates have
pairwise distinct ids: exactly the valid candidates whose id is not in
the working copy, in batch order. -/
theorem notify_runCandidates (gid : Candidate → String) (now : Nat)
    (cands : List Candidate) (st : LoopSt) (hw : st.working.Nodup)
    (hv : (validIds gid cands).Nodup) :
    (runCandidates gid now st cands).notify =
      st.notify ++
        (cands.filter
          (fun c => !isInvalid c && decide (gid c ∉ st.working))).map (mkRecord now) := by
  induction cands generalizing st with
  | nil => simp
  | cons c cs ih =>
    rw [runCandidates_cons]
    by_cases hc : isInvalid c
    · rw [stepCandidate_invalid gid now st hc]
      rw [ih st hw (by rwa [validIds_cons, if_pos hc] at hv)]
      simp [List.filter_cons, hc]
    · rw [validIds_cons, if_neg hc] at hv
      rcases List.nodup_cons.mp hv with ⟨hnotin, hvs⟩
      by_cases hm : gid c ∈ st.working
      · rw [stepCandidate_match gid now st (by simpa using hc) hm]
        have hiter := ih { st with working := eraseId st.working (gid c) }
          (nodup_eraseId _ hw) hvs
        rw [hiter]
        simp only [List.filter_cons, Bool.not_eq_true', List.map_append]
        have hpred :
            (cs.filter
              (fun c2 => !isInvalid c2 && decide (gid c2 ∉ eraseId st.working (gid c)))) =
            (cs.filter (fun c2 => !isInvalid c2 && decide (gid c2 ∉ st.working))) := by
          apply List.filter_congr
          intro c2 hc2
          by_cases h2 : isInvalid c2
          · simp [h2]
          · have hne : gid c2 ≠ gid c := by
              intro he
              apply hnotin
              rw [← he]
              exact List.mem_map_of_mem gid (List.mem_filter.mpr ⟨hc2, by simpa using h2⟩)
            simp only [h2, Bool.not_false, Bool.true_and, decide_eq_decide]
            rw [mem_eraseId hw]
            constructor
            · intro hni hmem
              exact hni ⟨hmem, hne⟩
            · intro hni hmem
              exact hni hmem.1
        rw [hpred]
        have hcfalse : (!isInvalid c && decide (gid c ∉ st.working)) = false := by
          simp [hm]
        simp [hcfalse, hc, hm]
      · rw [stepCandidate_add gid now st (by simpa using hc) hm]
        have hiter := ih { st with
            store := setDoc st.store (gid c) (mkRecord now c),
            notify := st.notify ++ [mkRecord now c] } hw hvs
        rw [hiter]
        have hctrue : (!isInvalid c && decide (gid c ∉ st.working)) = true := by
          simp [hc, hm]
        simp [List.filter_cons, hctrue, mkRecord, hc, hm]

/-- When every valid candidate id is already in the working copy (and ids
are pairwise distinct), the loop writes nothing and notifies nothing. -/
theorem runCandidates_all_match (gid : Candidate → String) (now : Nat)
    (cands : List Candidate) (st : LoopSt) (hw : st.working.Nodup)
    (hv : (validIds gid cands).Nodup)
    (hall : ∀ c ∈ cands, isInvalid c = false → gid c ∈ st.working) :
    (runCandidates gid now st cands).store = st.store ∧
      (runCandidates gid now st cands).notify = st.notify := by
  induction cands generalizing st with
  | nil => simp
  | cons c cs ih =>
    rw [runCandidates_cons]
    by_cases hc : isInvalid c
    · rw [stepCandidate_invalid gid now st hc]
      refine ih st hw (by rwa [validIds_cons, if_pos hc] at hv) ?_
      intro c2 hc2 h2
      exact hall c2 (List.mem_cons_of_mem _ hc2) h2
    · rw [validIds_cons, if_neg hc] at hv
      rcases List.nodup_cons.mp hv with ⟨hnotin, hvs⟩
      have hm : gid c ∈ st.working := hall c (List.mem_cons_self _ _) (by simpa using hc)
      rw [stepCandidate_match gid now st (by simpa using hc) hm]
      refine ih _ (nodup_eraseId _ hw) hvs ?_
      intro c2 hc2 h2
      have hne : gid c2 ≠ gid c := by
        intro he
        apply hnotin
        rw [← he]
        exact List.mem_map_of_mem gid (List.mem_filter.mpr ⟨hc2, by simpa using h2⟩)
      exact (mem_eraseId hw _ _).mpr ⟨hall c2 (List.mem_cons_of_mem _ hc2) h2, hne⟩

/-- A live document whose id no valid candidate carries survives the loop
untouched. -/
theorem mem_store_runCandidates_of_no_candidate (gid : Candidate → String) (now : Nat)
    (cands : List Candidate) (st : LoopSt) {x : String} {q : GameRecord}
    (hx : (x, q) ∈ st.store) (hno : ∀ c ∈ cands, isInvalid c = false → gid c ≠ x) :
    (x, q) ∈ (runCandidates gid now st cands).store := by
  induction cands generalizing st with
  | nil => simpa
  | cons c cs ih =>
    rw [runCandidates_cons]
    by_cases hc : isInvalid c
    · rw [stepCandidate_invalid gid now st hc]
      exact ih st hx fun c2 hc2 h2 => hno c2 (List.mem_cons_of_mem _ hc2) h2
    · by_cases hm : gid c ∈ st.working
      · rw [stepCandidate_match gid now st (by simpa using hc) hm]
        exact ih _ hx fun c2 hc2 h2 => hno c2 (List.mem_cons_of_mem _ hc2) h2
      · rw [stepCandidate_add gid now st (by simpa using hc) hm]
        have hne : x ≠ gid c :=
          fun he => hno c (List.mem_cons_self _ _) (by simpa using hc) he.symm
        exact ih { st with
            store := setDoc st.store (gid c) (mkRecord now c),
            notify := st.notify ++ [mkRecord now c] }
          (mem_setDoc_of_ne st.store (gid c) (mkRecord now c) hx hne)
          fun c2 hc2 h2 => hno c2 (List.mem_cons_of_mem _ hc2) h2

/-- A live document whose id some valid candidate carries, with the id in
the working copy and ids pairwise distinct, survives the loop untouched:
the matching candidate only confirms it. -/
theorem mem_store_runCandidates_of_match (gid : Candidate → String) (now : Nat)
    (cands : List Candidate) (st : LoopSt) {x : String} {q : GameRecord}
    (hx : (x, q) ∈ st.store) (hm : x ∈ st.working) (hw : st.working.Nodup)
    (hv : (validIds gid cands).Nodup) :
    (x, q) ∈ (runCandidates gid now st cands).store := by
  induction cands generalizing st with
  | nil => simpa
  | cons c cs ih =>
    rw [runCandidates_cons]
    by_cases hc : isInvalid c
    · rw [stepCandidate_invalid gid now st hc]
      exact ih st hx hm hw (by rwa [validIds_cons, if_pos hc] at hv)
    · rw [validIds_cons, if_neg hc] at hv
      rcases List.nodup_cons.mp hv with ⟨hnotin, hvs⟩
      by_cases hcm : gid c ∈ st.working
      · rw [stepCandidate_match gid now st (by simpa using hc) hcm]
        by_cases hex : gid c = x
        · subst hex
          refine mem_store_runCandidates_of_no_candidate gid now cs _ hx ?_
          intro c2 hc2 h2 he
          apply hnotin
          rw [← he]
          exact List.mem_map_of_mem gid (List.mem_filter.mpr ⟨hc2, by simpa using h2⟩)
        · exact ih { st with working := eraseId st.working (gid c) } hx
            ((mem_eraseId hw _ _).mpr ⟨hm, fun he => hex he.symm⟩)
            (nodup_eraseId _ hw) hvs
      · rw [stepCandidate_add gid now st (by simpa using hc) hcm]
        have hne : x ≠ gid c := fun he => hcm (he ▸ hm)
        exact ih { st with
            store := setDoc st.store (gid c) (mkRecord now c),
            notify := st.notify ++ [mkRecord now c] }
          (mem_setDoc_of_ne st.store (gid c) (mkRecord now c) hx hne) hm hw hvs


theorem reconcile_store_def (gid : Candidate → String) (now : Nat)
    (store : Store) (cands : List Candidate) :
    (reconcile gid now store cands).store =
      (runCandidates gid now ⟨store, storeKeys store, []⟩ cands).working.foldl deleteDoc
        (runCandidates gid now ⟨store, storeKeys store, []⟩ cands).store := rfl

theorem reconcile_notify_def (gid : Candidate → String) (now : Nat)
    (store : Store) (cands : List Candidate) :
    (reconcile gid now store cands).notify =
      (runCandidates gid now ⟨store, storeKeys store, []⟩ cands).notify := rfl

theorem reconcile_removed_def (gid : Candidate → String) (now : Nat)
    (store : Store) (cands : List Candidate) :
    (reconcile gid now store cands).removed =
      (runCandidates gid now ⟨store, storeKeys store, []⟩ cands).working := rfl

theorem runCandidates_append (gid : Candidate → String) (now : Nat) (st : LoopSt)
    (a b : List Candidate) :
    runCandidates gid now st (a ++ b) = runCandidates gid now (runCandidates gid now st a) b :=
  List.foldl_append _ _ _ _

/-- Every notified record is either inherited or produced by a valid
candidate of the batch. -/
theorem notify_origin (gid : Candidate → String) (now : Nat)
    (cands : List Candidate) (st : LoopSt) {r : GameRecord}
    (hr : r ∈ (runCandidates gid now st cands).notify) :
    r ∈ st.notify ∨ ∃ c ∈ cands, isInvalid c = false ∧ r = mkRecord now c := by
  induction cands generalizing st with
  | nil => simp at hr; exact Or.inl hr
  | cons c cs ih =>
    rw [runCandidates_cons] at hr
    by_cases hc : isInvalid c
    · rw [stepCandidate_invalid gid now st hc] at hr
      rcases ih st hr with h | ⟨c2, hc2, h2⟩
      · exact Or.inl h
      · exact Or.inr ⟨c2, List.mem_cons_of_mem _ hc2, h2⟩
    · by_cases hm : gid c ∈ st.working
      · rw [stepCandidate_match gid now st (by simpa using hc) hm] at hr
        rcases ih _ hr with h | ⟨c2, hc2, h2⟩
        · exact Or.inl h
        · exact Or.inr ⟨c2, List.mem_cons_of_mem _ hc2, h2⟩
      · rw [stepCandidate_add gid now st (by simpa using hc) hm] at hr
        rcases ih _ hr with h | ⟨c2, hc2, h2⟩
        · rcases List.mem_append.mp h with h1 | h1
          · exact Or.inl h1
          · refine Or.inr ⟨c, List.mem_cons_self _ _, by simpa using hc, ?_⟩
            simpa using h1
        · exact Or.inr ⟨c2, List.mem_cons_of_mem _ hc2, h2⟩

/-- Keys of the collection stay duplicate-free through the loop. -/
theorem nodup_storeKeys_runCandidates (gid : Candidate → String) (now : Nat)
    (cands : List Candidate) (st : LoopSt) (hk : (storeKeys st.store).Nodup) :
    (storeKeys (runCandidates gid now st cands).store).Nodup := by
  induction cands generalizing st with
  | nil => simpa
  | cons c cs ih =>
    rw [runCandidates_cons]
    by_cases hc : isInvalid c
    · rw [stepCandidate_invalid gid now st hc]; exact ih st hk
    · by_cases hm : gid c ∈ st.working
      · rw [stepCandidate_match gid now st (by simpa using hc) hm]; exact ih _ hk
      · rw [stepCandidate_add gid now st (by simpa using hc) hm]
        exact ih _ (nodup_storeKeys_setDoc _ _ _ hk)

/-- Keys of the collection after a full reconciliation pass are exactly
the ids of the valid candidates. -/
theorem mem_storeKeys_reconcile (gid : Candidate → String) (now : Nat)
    (store : Store) (cands : List Candidate) (hk : (storeKeys store).Nodup) (x : String) :
    x ∈ storeKeys (reconcile gid now store cands).store ↔ x ∈ validIds gid cands := by
  rw [reconcile_store_def]
  rw [mem_storeKeys_foldl_deleteDoc]
  rw [mem_storeKeys_runCandidates gid now cands ⟨store, storeKeys store, []⟩ (fun y hy => hy) x]
  rw [mem_working_runCandidates gid now cands ⟨store, storeKeys store, []⟩ hk x]
  tauto

/-- The REMOVE set after a pass: previously persisted ids no valid
candidate carries. -/
theorem mem_removed_reconcile (gid : Candidate → String) (now : Nat)
    (store : Store) (cands : List Candidate) (hk : (storeKeys store).Nodup) (x : String) :
    x ∈ (reconcile gid now store cands).removed ↔
      x ∈ storeKeys store ∧ x ∉ validIds gid cands := by
  rw [reconcile_removed_def]
  exact mem_working_runCandidates gid now cands ⟨store, storeKeys store, []⟩ hk x

/-- The notification queue after a pass, when the valid candidates have
pairwise distinct ids: the valid candidates whose id was not yet
persisted, in batch order. -/
theorem notify_reconcile (gid : Candidate → String) (now : Nat)
    (store : Store) (cands : List Candidate) (hk : (storeKeys store).Nodup)
    (hv : (validIds gid cands).Nodup) :
    (reconcile gid now store cands).notify =
      (cands.filter
        (fun c => !isInvalid c && decide (gid c ∉ storeKeys store))).map (mkRecord now) := by
  rw [reconcile_notify_def]
  rw [notify_runCandidates gid now cands ⟨store, storeKeys store, []⟩ hk hv]
  simp

/-- Result keys of a pass stay duplicate-free. -/
theorem nodup_storeKeys_reconcile (gid : Candidate → String) (now : Nat)
    (store : Store) (cands : List Candidate) (hk : (storeKeys store).Nodup) :
    (storeKeys (reconcile gid now store cands).store).Nodup := by
  rw [reconcile_store_def]
  exact nodup_storeKeys_foldl_deleteDoc _ _
    (nodup_storeKeys_runCandidates gid now cands ⟨store, storeKeys store, []⟩ hk)

/-- Running the pass again on its own output changes nothing: the store
is returned as-is, nothing is notified and nothing is removed (valid
candidate ids pairwise distinct). -/
theorem reconcile_idempotent (gid : Candidate → String) (t1 t2 : Nat)
    (store : Store) (cands : List Candidate) (hk : (storeKeys store).Nodup)
    (hv : (validIds gid cands).Nodup) :
    (reconcile gid t2 (reconcile gid t1 store cands).store cands).store =
        (reconcile gid t1 store cands).store ∧
      (reconcile gid t2 (reconcile gid t1 store cands).store cands).notify = [] ∧
      (reconcile gid t2 (reconcile gid t1 store cands).store cands).removed = [] := by
  have hk1 : (storeKeys (reconcile gid t1 store cands).store).Nodup :=
    nodup_storeKeys_reconcile gid t1 store cands hk
  have hall : ∀ c ∈ cands, isInvalid c = false →
      gid c ∈ storeKeys (reconcile gid t1 store cands).store := by
    intro c hc h2
    rw [mem_storeKeys_reconcile gid t1 store cands hk]
    exact List.mem_map_of_mem gid (List.mem_filter.mpr ⟨hc, by simpa using h2⟩)
  have hwork : (runCandidates gid t2
      ⟨(reconcile gid t1 store cands).store,
        storeKeys (reconcile gid t1 store cands).store, []⟩ cands).working = [] := by
    rw [List.eq_nil_iff_forall_not_mem]
    intro x hx
    rw [mem_working_runCandidates gid t2 cands _ hk1 x] at hx
    rcases hx with ⟨hx1, hx2⟩
    exact hx2 ((mem_storeKeys_reconcile gid t1 store cands hk x).mp hx1)
  have hmatch := runCandidates_all_match gid t2 cands
    ⟨(reconcile gid t1 store cands).store,
      storeKeys (reconcile gid t1 store cands).store, []⟩ hk1 hv hall
  refine ⟨?_, ?_, ?_⟩
  · rw [reconcile_store_def gid t2]
    rw [hwork]
    simpa using hmatch.1
  · rw [reconcile_notify_def gid t2]
    simpa using hmatch.2
  · rw [reconcile_removed_def gid t2]
    exact hwork

/-- A persisted record whose id is seen again (ids pairwise distinct)
survives the pass byte-for-byte: it is neither rewritten nor removed nor
re-notified. -/
theorem reconcile_preserves_matched (gid : Candidate → String) (now : Nat)
    (store : Store) (cands : List Candidate) (id : String) (rec : GameRecord)
    (hk : (storeKeys store).Nodup) (hv : (validIds gid cands).Nodup)
    (hmem : (id, rec) ∈ store) (hobs : id ∈ validIds gid cands) :
    (id, rec) ∈ (reconcile gid now store cands).store ∧
      id ∉ (reconcile gid now store cands).removed ∧
      ∀ r ∈ (reconcile gid now store cands).notify,
        gid ⟨r.title, r.url, r.imageUrl⟩ ≠ id := by
  have hkeymem : id ∈ storeKeys store := List.mem_map_of_mem Prod.fst hmem
  have hnotw : id ∉ (reconcile gid now store cands).removed := by
    rw [mem_removed_reconcile gid now store cands hk id]
    rintro ⟨_, h2⟩
    exact h2 hobs
  refine ⟨?_, hnotw, ?_⟩
  · rw [reconcile_store_def]
    refine mem_foldl_deleteDoc_of_not_mem _ _ ?_ ?_
    · exact mem_store_runCandidates_of_match gid now cands
        ⟨store, storeKeys store, []⟩ hmem hkeymem hk hv
    · rw [reconcile_removed_def] at hnotw
      exact hnotw
  · intro r hr
    rw [notify_reconcile gid now store cands hk hv] at hr
    rcases List.mem_map.mp hr with ⟨c, hcf, hrc⟩
    rcases List.mem_filter.mp hcf with ⟨_, hpred⟩
    intro he
    simp only [Bool.and_eq_true] at hpred
    have hnotin : gid c ∉ storeKeys store := of_decide_eq_true hpred.2
    apply hnotin
    have hfields : gid ⟨r.title, r.url, r.imageUrl⟩ = gid c := by
      rw [← hrc]
      rfl
    rw [← hfields, he]
    exact hkeymem


theorem sanitizeAux_nil (b : Bool) : sanitizeAux b [] = [] := rfl

theorem sanitizeAux_cons_allowed (b : Bool) {c : Char} (l : List Char)
    (h : isAllowedChar c = true) : sanitizeAux b (c :: l) = c :: sanitizeAux false l := by
  simp [sanitizeAux, h]

theorem sanitizeAux_cons_bad_true {c : Char} (l : List Char)
    (h : isAllowedChar c = false) : sanitizeAux true (c :: l) = sanitizeAux true l := by
  simp [sanitizeAux, h]

theorem sanitizeAux_cons_bad_false {c : Char} (l : List Char)
    (h : isAllowedChar c = false) : sanitizeAux false (c :: l) = '_' :: sanitizeAux true l := by
  simp [sanitizeAux, h]

theorem sanitizeAux_allowed (b : Bool) (l : List Char) :
    ∀ c ∈ sanitizeAux b l, isAllowedChar c = true := by
  induction l generalizing b with
  | nil => intro c hc; simp [sanitizeAux] at hc
  | cons d rest ih =>
    intro c hc
    by_cases hd : isAllowedChar d
    · rw [sanitizeAux_cons_allowed b rest hd] at hc
      rcases List.mem_cons.mp hc with h | h
      · rw [h]; exact hd
      · exact ih false c h
    · cases b with
      | true =>
        rw [sanitizeAux_cons_bad_true rest (by simpa using hd)] at hc
        exact ih true c hc
      | false =>
        rw [sanitizeAux_cons_bad_false rest (by simpa using hd)] at hc
        rcases List.mem_cons.mp hc with h | h
        · rw [h]; rfl
        · exact ih true c h

theorem sanitizeAux_length (b : Bool) (l : List Char) :
    (sanitizeAux b l).length ≤ l.length := by
  induction l generalizing b with
  | nil => simp [sanitizeAux]
  | cons d rest ih =>
    by_cases hd : isAllowedChar d
    · rw [sanitizeAux_cons_allowed b rest hd]
      exact Nat.succ_le_succ (ih false)
    · cases b with
      | true =>
        rw [sanitizeAux_cons_bad_true rest (by simpa using hd)]
        exact Nat.le_succ_of_le (ih true)
      | false =>
        rw [sanitizeAux_cons_bad_false rest (by simpa using hd)]
        exact Nat.succ_le_succ (ih true)

theorem noAdjacentDisallowed_tail {d : Char} {rest : List Char}
    (h : noAdjacentDisallowed (d :: rest) = true) : noAdjacentDisallowed rest = true := by
  cases rest with
  | nil => rfl
  | cons e t =>
    simp only [noAdjacentDisallowed, Bool.and_eq_true] at h
    exact h.2

theorem sanitizeAux_map_of_noAdjacent (l : List Char)
    (hch : noAdjacentDisallowed l = true) :
    ∀ b : Bool, (b = true → ∀ c, l.head? = some c → isAllowedChar c = true) →
      sanitizeAux b l = l.map (fun c => if isAllowedChar c then c else '_') := by
  induction l with
  | nil => intro b _; simp [sanitizeAux]
  | cons d rest ih =>
    intro b hb
    have hch2 : noAdjacentDisallowed rest = true := noAdjacentDisallowed_tail hch
    by_cases hd : isAllowedChar d
    · rw [sanitizeAux_cons_allowed b rest hd]
      simp only [List.map_cons, if_pos hd]
      refine congrArg (List.cons d) (ih hch2 false ?_)
      intro h
      simp at h
    · have hbf : b = false := by
        cases b with
        | false => rfl
        | true => exact absurd (hb rfl d rfl) hd
      subst hbf
      rw [sanitizeAux_cons_bad_false rest (by simpa using hd)]
      simp only [List.map_cons, if_neg hd]
      refine congrArg (List.cons '_') (ih hch2 true ?_)
      intro _ c hc
      cases rest with
      | nil => simp at hc
      | cons e tail =>
        simp only [List.head?_cons, Option.some.injEq] at hc
        subst hc
        simp only [noAdjacentDisallowed, Bool.and_eq_true, Bool.or_eq_true] at hch
        rcases hch.1 with h | h
        · exact absurd h hd
        · exact h

theorem scroll_until_stable_loop_formula (counts : Nat → Nat) (N : Nat)
    (hN : 0 < N) (h0 : 0 < counts 0)
    (hinc : ∀ i, i + 1 < N → counts i < counts (i + 1))
    (hplat : ∀ i, N ≤ i → counts i = counts (N - 1)) :
    ∀ fuel j, j ≤ N →
      scroll_until_stable_loop counts (scrollPrev counts j) j fuel = min (N + 1) (j + fuel) := by
  intro fuel
  induction fuel with
  | zero =>
    intro j hj
    simp only [scroll_until_stable_loop, Nat.add_zero]
    exact (Nat.min_eq_right (Nat.le_succ_of_le hj)).symm
  | succ fuel ih =>
    intro j hj
    rcases Nat.lt_or_ge j N with hlt | hge
    · have hne : counts j ≠ scrollPrev counts j := by
        cases j with
        | zero =>
          simp only [scrollPrev]
          exact Nat.pos_iff_ne_zero.mp h0
        | succ k =>
          simp only [scrollPrev]
          exact Nat.ne_of_gt (hinc k hlt)
      simp only [scroll_until_stable_loop, if_neg hne]
      have hrec := ih (j + 1) hlt
      simp only [scrollPrev] at hrec
      rw [hrec]
      congr 1
      omega
    · have hje : j = N := Nat.le_antisymm hj hge
      have hprev : scrollPrev counts j = counts (N - 1) := by
        rw [hje]
        cases N with
        | zero => exact absurd hN (by simp)
        | succ m => simp [scrollPrev]
      have heq : counts j = scrollPrev counts j := by
        rw [hprev, hje]
        exact hplat N (Nat.le_refl N)
      simp only [scroll_until_stable_loop, if_pos heq]
      omega

theorem natural_scroll_loop_formula (counts : Nat → Nat) (N : Nat)
    (hN : 0 < N) (h0 : 0 < counts 0)
    (hinc : ∀ i, i + 1 < N → counts i < counts (i + 1))
    (hplat : ∀ i, N ≤ i → counts i = counts (N - 1)) :
    ∀ fuel j, j ≤ N →
      natural_scroll_loop counts (scrollPrev counts j) j fuel = min (N + 1) (j + fuel) := by
  intro fuel
  induction fuel with
  | zero =>
    intro j hj
    simp only [natural_scroll_loop, Nat.add_zero]
    exact (Nat.min_eq_right (Nat.le_succ_of_le hj)).symm
  | succ fuel ih =>
    intro j hj
    rcases Nat.lt_or_ge j N with hlt | hge
    · have hgt : scrollPrev counts j < counts j := by
        cases j with
        | zero => simpa [scrollPrev] using h0
        | succ k => simpa [scrollPrev] using hinc k hlt
      simp only [natural_scroll_loop, if_pos hgt]
      have hrec := ih (j + 1) hlt
      simp only [scrollPrev] at hrec
      rw [hrec]
      congr 1
      omega
    · have hje : j = N := Nat.le_antisymm hj hge
      have hprev : scrollPrev counts j = counts (N - 1) := by
        rw [hje]
        cases N with
        | zero => exact absurd hN (by simp)
        | succ m => simp [scrollPrev]
      have hnot : ¬ scrollPrev counts j < counts j := by
        rw [hprev, hje, hplat N (Nat.le_refl N)]
        exact Nat.lt_irrefl _
      simp only [natural_scroll_loop, if_neg hnot]
      omega


/-- C1: when the steam results selector never appears, or the page never
loads, the exception reaches the generic handler: the persisted set is
returned untouched (no record deleted, none added), no status document is
written, nothing is notified, and the failure is surfaced as the
fetch-level error email. -/
theorem C1_failed_fetch_preserves_store (now : Nat) (store : Store) :
    scrape_steam SteamFetch.resultsTimeout now store = ⟨store, none, true, []⟩ ∧
      scrape_steam SteamFetch.navigationFailed now store = ⟨store, none, true, []⟩ :=
  ⟨rfl, rfl⟩

/-- C2 counterexample: two candidates sharing one id that is already
persisted yield a nonempty notification queue even though the ADD set
(candidate ids not previously persisted) is empty, so the notification
queue is not the ADD set. -/
theorem C2_counterexample :
    (∀ x ∈ validIds prime_game_id
        [⟨"Gamma", "/games/gamma", "i"⟩, ⟨"Gamma", "/games/gamma", "i"⟩],
      x ∈ storeKeys [("gamma", ⟨"Gamma", "/games/gamma", "i", 1⟩)]) ∧
      (reconcile prime_game_id 9 [("gamma", ⟨"Gamma", "/games/gamma", "i", 1⟩)]
        [⟨"Gamma", "/games/gamma", "i"⟩, ⟨"Gamma", "/games/gamma", "i"⟩]).notify ≠ [] := by
  decide

/-- C2 (amended): after a successful pass whose valid candidates carry
pairwise-distinct ids, the persisted ids are exactly the valid candidate
ids, the notification queue is exactly the valid candidates whose id was
not yet persisted (the ADD set), the REMOVE set is exactly the previously
persisted ids no valid candidate carries, and no notified record's id is
in the REMOVE set. -/
theorem C2_reconcile_exact_sync (gid : Candidate → String) (now : Nat) (store : Store)
    (cands : List Candidate) (hk : (storeKeys store).Nodup)
    (hv : (validIds gid cands).Nodup) :
    (∀ x, x ∈ storeKeys (reconcile gid now store cands).store ↔ x ∈ validIds gid cands) ∧
      (reconcile gid now store cands).notify =
        (cands.filter
          (fun c => !isInvalid c && decide (gid c ∉ storeKeys store))).map (mkRecord now) ∧
      (∀ x, x ∈ (reconcile gid now store cands).removed ↔
        x ∈ storeKeys store ∧ x ∉ validIds gid cands) ∧
      (∀ r ∈ (reconcile gid now store cands).notify,
        gid ⟨r.title, r.url, r.imageUrl⟩ ∉ (reconcile gid now store cands).removed) := by
  refine ⟨fun x => mem_storeKeys_reconcile gid now store cands hk x,
    notify_reconcile gid now store cands hk hv,
    fun x => mem_removed_reconcile gid now store cands hk x, ?_⟩
  intro r hr
  rw [notify_reconcile gid now store cands hk hv] at hr
  rcases List.mem_map.mp hr with ⟨c, hcf, hrc⟩
  rcases List.mem_filter.mp hcf with ⟨_, hpred⟩
  simp only [Bool.and_eq_true] at hpred
  have hnotin : gid c ∉ storeKeys store := of_decide_eq_true hpred.2
  intro hrem
  rw [mem_removed_reconcile gid now store cands hk] at hrem
  apply hnotin
  have hfields : gid ⟨r.title, r.url, r.imageUrl⟩ = gid c := by
    rw [← hrc]
    rfl
  rw [← hfields]
  exact hrem.1

/-- C2 witness: a pass over a store holding `alpha` and `beta` with
candidates `alpha` (kept) and `gamma` (new). -/
theorem C2_witness :
    ((storeKeys [("alpha", ⟨"Alpha", "/games/alpha", "i", 1⟩),
        ("beta", ⟨"Beta", "/games/beta", "i", 1⟩)]).Nodup ∧
      (validIds prime_game_id
        [⟨"Alpha", "/games/alpha", "i"⟩, ⟨"Gamma", "/games/gamma", "i"⟩]).Nodup) ∧
    ((∀ x, x ∈ storeKeys (reconcile prime_game_id 2
          [("alpha", ⟨"Alpha", "/games/alpha", "i", 1⟩),
           ("beta", ⟨"Beta", "/games/beta", "i", 1⟩)]
          [⟨"Alpha", "/games/alpha", "i"⟩, ⟨"Gamma", "/games/gamma", "i"⟩]).store ↔
        x ∈ validIds prime_game_id
          [⟨"Alpha", "/games/alpha", "i"⟩, ⟨"Gamma", "/games/gamma", "i"⟩]) ∧
      (reconcile prime_game_id 2
          [("alpha", ⟨"Alpha", "/games/alpha", "i", 1⟩),
           ("beta", ⟨"Beta", "/games/beta", "i", 1⟩)]
          [⟨"Alpha", "/games/alpha", "i"⟩, ⟨"Gamma", "/games/gamma", "i"⟩]).notify =
        ([⟨"Alpha", "/games/alpha", "i"⟩, ⟨"Gamma", "/games/gamma", "i"⟩].filter
          (fun c => !isInvalid c && decide (prime_game_id c ∉
            storeKeys [("alpha", ⟨"Alpha", "/games/alpha", "i", 1⟩),
              ("beta", ⟨"Beta", "/games/beta", "i", 1⟩)]))).map (mkRecord 2) ∧
      (∀ x, x ∈ (reconcile prime_game_id 2
          [("alpha", ⟨"Alpha", "/games/alpha", "i", 1⟩),
           ("beta", ⟨"Beta", "/games/beta", "i", 1⟩)]
          [⟨"Alpha", "/games/alpha", "i"⟩, ⟨"Gamma", "/games/gamma", "i"⟩]).removed ↔
        x ∈ storeKeys [("alpha", ⟨"Alpha", "/games/alpha", "i", 1⟩),
            ("beta", ⟨"Beta", "/games/beta", "i", 1⟩)] ∧
          x ∉ validIds prime_game_id
            [⟨"Alpha", "/games/alpha", "i"⟩, ⟨"Gamma", "/games/gamma", "i"⟩]) ∧
      (∀ r ∈ (reconcile prime_game_id 2
          [("alpha", ⟨"Alpha", "/games/alpha", "i", 1⟩),
           ("beta", ⟨"Beta", "/games/beta", "i", 1⟩)]
          [⟨"Alpha", "/games/alpha", "i"⟩, ⟨"Gamma", "/games/gamma", "i"⟩]).notify,
        prime_game_id ⟨r.title, r.url, r.imageUrl⟩ ∉
          (reconcile prime_game_id 2
            [("alpha", ⟨"Alpha", "/games/alpha", "i", 1⟩),
             ("beta", ⟨"Beta", "/games/beta", "i", 1⟩)]
            [⟨"Alpha", "/games/alpha", "i"⟩, ⟨"Gamma", "/games/gamma", "i"⟩]).removed)) :=
  ⟨⟨by decide, by decide⟩,
    C2_reconcile_exact_sync prime_game_id 2
      [("alpha", ⟨"Alpha", "/games/alpha", "i", 1⟩),
       ("beta", ⟨"Beta", "/games/beta", "i", 1⟩)]
      [⟨"Alpha", "/games/alpha", "i"⟩, ⟨"Gamma", "/games/gamma", "i"⟩]
      (by decide) (by decide)⟩


/-- C3 counterexample: with a candidate id occurring twice in the batch,
the second pass over an unchanged batch is not a no-op: it re-notifies
the record and rewrites its `createdAt`. -/
theorem C3_counterexample :
    (reconcile prime_game_id 2
        (reconcile prime_game_id 1 []
          [⟨"Beta", "/games/beta", "i"⟩, ⟨"Beta", "/games/beta", "i"⟩]).store
        [⟨"Beta", "/games/beta", "i"⟩, ⟨"Beta", "/games/beta", "i"⟩]).notify ≠ [] ∧
      (reconcile prime_game_id 2
          (reconcile prime_game_id 1 []
            [⟨"Beta", "/games/beta", "i"⟩, ⟨"Beta", "/games/beta", "i"⟩]).store
          [⟨"Beta", "/games/beta", "i"⟩, ⟨"Beta", "/games/beta", "i"⟩]).store ≠
        (reconcile prime_game_id 1 []
          [⟨"Beta", "/games/beta", "i"⟩, ⟨"Beta", "/games/beta", "i"⟩]).store := by
  decide

/-- C3 (amended): when the valid candidates carry pairwise-distinct ids
(and the persisted keys are unique, as Firestore guarantees), running
the reconcile step a second time with an unchanged candidate list
returns the store unchanged record-for-record, notifies nothing and
removes nothing. -/
theorem C3_reconcile_idempotent (gid : Candidate → String) (t1 t2 : Nat)
    (store : Store) (cands : List Candidate) (hk : (storeKeys store).Nodup)
    (hv : (validIds gid cands).Nodup) :
    (reconcile gid t2 (reconcile gid t1 store cands).store cands).store =
        (reconcile gid t1 store cands).store ∧
      (reconcile gid t2 (reconcile gid t1 store cands).store cands).notify = [] ∧
      (reconcile gid t2 (reconcile gid t1 store cands).store cands).removed = [] :=
  reconcile_idempotent gid t1 t2 store cands hk hv

/-- C3 witness: a first pass persists `beta` and `gamma`; the second pass
over the same batch changes nothing. -/
theorem C3_witness :
    ((storeKeys ([("alpha", ⟨"Alpha", "/games/alpha", "i", 0⟩)] : Store)).Nodup ∧
      (validIds prime_game_id
        [⟨"Beta", "/games/beta", "i"⟩, ⟨"Gamma", "/games/gamma", "i"⟩]).Nodup) ∧
    ((reconcile prime_game_id 2
        (reconcile prime_game_id 1 [("alpha", ⟨"Alpha", "/games/alpha", "i", 0⟩)]
          [⟨"Beta", "/games/beta", "i"⟩, ⟨"Gamma", "/games/gamma", "i"⟩]).store
        [⟨"Beta", "/games/beta", "i"⟩, ⟨"Gamma", "/games/gamma", "i"⟩]).store =
      (reconcile prime_game_id 1 [("alpha", ⟨"Alpha", "/games/alpha", "i", 0⟩)]
        [⟨"Beta", "/games/beta", "i"⟩, ⟨"Gamma", "/games/gamma", "i"⟩]).store ∧
    (reconcile prime_game_id 2
        (reconcile prime_game_id 1 [("alpha", ⟨"Alpha", "/games/alpha", "i", 0⟩)]
          [⟨"Beta", "/games/beta", "i"⟩, ⟨"Gamma", "/games/gamma", "i"⟩]).store
        [⟨"Beta", "/games/beta", "i"⟩, ⟨"Gamma", "/games/gamma", "i"⟩]).notify = [] ∧
    (reconcile prime_game_id 2
        (reconcile prime_game_id 1 [("alpha", ⟨"Alpha", "/games/alpha", "i", 0⟩)]
          [⟨"Beta", "/games/beta", "i"⟩, ⟨"Gamma", "/games/gamma", "i"⟩]).store
        [⟨"Beta", "/games/beta", "i"⟩, ⟨"Gamma", "/games/gamma", "i"⟩]).removed = []) :=
  ⟨⟨by decide, by decide⟩,
    C3_reconcile_idempotent prime_game_id 1 2
      [("alpha", ⟨"Alpha", "/games/alpha", "i", 0⟩)]
      [⟨"Beta", "/games/beta", "i"⟩, ⟨"Gamma", "/games/gamma", "i"⟩]
      (by decide) (by decide)⟩

/-- C4: an all-sentinel candidate is discarded before diffing: deleting
it from the batch changes nothing about the pass (same store, same
notifications, same REMOVE set), and no notified record is all-sentinel,
for every id derivation. -/
theorem C4_sentinel_filtering (gid : Candidate → String) (now : Nat) (store : Store)
    (l1 l2 : List Candidate) :
    reconcile gid now store
        (l1 ++ ⟨"Unknown Title", "No URL Found", "No Image Found"⟩ :: l2) =
      reconcile gid now store (l1 ++ l2) ∧
    ∀ r ∈ (reconcile gid now store (l1 ++ l2)).notify,
      ¬(r.title = "Unknown Title" ∧ r.url = "No URL Found" ∧
        r.imageUrl = "No Image Found") := by
  constructor
  · have hrun : runCandidates gid now ⟨store, storeKeys store, []⟩
        (l1 ++ ⟨"Unknown Title", "No URL Found", "No Image Found"⟩ :: l2) =
        runCandidates gid now ⟨store, storeKeys store, []⟩ (l1 ++ l2) := by
      rw [runCandidates_append, runCandidates_append, runCandidates_cons,
        stepCandidate_invalid gid now _ (by decide)]
    show (⟨(runCandidates gid now ⟨store, storeKeys store, []⟩
        (l1 ++ ⟨"Unknown Title", "No URL Found", "No Image Found"⟩ :: l2)).working.foldl
          deleteDoc
          (runCandidates gid now ⟨store, storeKeys store, []⟩
            (l1 ++ ⟨"Unknown Title", "No URL Found", "No Image Found"⟩ :: l2)).store,
        (runCandidates gid now ⟨store, storeKeys store, []⟩
          (l1 ++ ⟨"Unknown Title", "No URL Found", "No Image Found"⟩ :: l2)).notify,
        (runCandidates gid now ⟨store, storeKeys store, []⟩
          (l1 ++ ⟨"Unknown Title", "No URL Found", "No Image Found"⟩ :: l2)).working⟩ :
        ReconcileResult) = _
    rw [hrun]
    rfl
  · intro r hr hsent
    rw [reconcile_notify_def] at hr
    rcases notify_origin gid now (l1 ++ l2) _ hr with h | ⟨c, _, hval, hrc⟩
    · simp at h
    · subst hrc
      simp only [isInvalid, mkRecord] at hval hsent
      rw [hsent.1, hsent.2.1, hsent.2.2] at hval
      simp at hval

/-- C5: every id derivation falls back deterministically to the
sanitized lowercased space-to-underscore title whenever the url holds the
sentinel that can reach it: `No URL Found` for the prime, gog and steam
derivations, and `No URL` (absent href) for the epic derivation, the only
url sentinel epic can build a candidate with, since the bare
`except TimeoutError` at epic.py line 166 names the builtin and a
Playwright timeout aborts the run before any id is derived. -/
theorem C5_title_fallback :
    (∀ t img, prime_game_id ⟨t, "No URL Found", img⟩ =
      sanitize (lowerStr (replaceSpaceUnderscore t))) ∧
    (∀ t img, gog_game_id ⟨t, "No URL Found", img⟩ =
      sanitize (lowerStr (replaceSpaceUnderscore t))) ∧
    (∀ t img, steam_game_id ⟨t, "No URL Found", img⟩ =
      sanitize (lowerStr (replaceSpaceUnderscore t))) ∧
    (∀ t, epic_game_id t "No URL" =
      sanitize (replaceSpaceUnderscore (lowerStr t))) :=
  ⟨fun _ _ => rfl, fun _ _ => rfl, fun _ _ => rfl, fun _ => rfl⟩

/-- C6 counterexample: `sanitize` collapses the run of two disallowed
characters in `a!!b` into one underscore, so the output is shorter than
the input, not of equal length with per-character replacement. -/
theorem C6_counterexample :
    sanitize "a!!b" = "a_b" ∧ ("a!!b" : String).length = 4 ∧
      (sanitize "a!!b").length = 3 := by
  decide

/-- C6 (amended): `sanitize` replaces every maximal run of characters
outside `[A-Za-z0-9_-]` with a single underscore: every output character
is in the class, the output is never longer than the input, and when no
two adjacent input characters are outside the class it is exactly the
per-character replacement of the claim. -/
theorem C6_sanitize_runs (s : String) :
    (∀ c ∈ (sanitize s).data, isAllowedChar c = true) ∧
      (sanitize s).length ≤ s.length ∧
      (noAdjacentDisallowed s.data = true →
        (sanitize s).data = s.data.map (fun c => if isAllowedChar c then c else '_')) := by
  refine ⟨sanitizeAux_allowed false s.data, sanitizeAux_length false s.data, ?_⟩
  intro h
  exact sanitizeAux_map_of_noAdjacent s.data h false (by simp)

/-- C6 witness: on an input without adjacent disallowed characters the
per-character description holds. -/
theorem C6_witness :
    noAdjacentDisallowed ("Alpha Beta 2" : String).data = true ∧
      (sanitize "Alpha Beta 2").data =
        ("Alpha Beta 2" : String).data.map
          (fun c => if isAllowedChar c then c else '_') :=
  ⟨by decide, (C6_sanitize_runs "Alpha Beta 2").2.2 (by decide)⟩

/-- C7 counterexample: a persisted record whose id is observed twice in
the later batch is rewritten: its `createdAt` changes from 3 to 8. -/
theorem C7_counterexample :
    (reconcile prime_game_id 8 [("delta", ⟨"Delta", "/games/delta", "i", 3⟩)]
        [⟨"Delta", "/games/delta", "i"⟩, ⟨"Delta", "/games/delta", "i"⟩]).store =
      [("delta", ⟨"Delta", "/games/delta", "i", 8⟩)] ∧
      ("delta", (⟨"Delta", "/games/delta", "i", 3⟩ : GameRecord)) ∉
        (reconcile prime_game_id 8 [("delta", ⟨"Delta", "/games/delta", "i", 3⟩)]
          [⟨"Delta", "/games/delta", "i"⟩, ⟨"Delta", "/games/delta", "i"⟩]).store := by
  decide

/-- C7 (amended): when the valid candidates carry pairwise-distinct ids,
a persisted record whose id is observed again survives the pass with
every field unchanged (`createdAt` included), is not removed, and is not
re-notified; `createdAt` is thus written only at first persistence. -/
theorem C7_match_is_noop (gid : Candidate → String) (now : Nat)
    (store : Store) (cands : List Candidate) (id : String) (rec : GameRecord)
    (hk : (storeKeys store).Nodup) (hv : (validIds gid cands).Nodup)
    (hmem : (id, rec) ∈ store) (hobs : id ∈ validIds gid cands) :
    (id, rec) ∈ (reconcile gid now store cands).store ∧
      id ∉ (reconcile gid now store cands).removed ∧
      ∀ r ∈ (reconcile gid now store cands).notify,
        gid ⟨r.title, r.url, r.imageUrl⟩ ≠ id :=
  reconcile_preserves_matched gid now store cands id rec hk hv hmem hobs

/-- C7 witness: the record `alpha` with `createdAt = 1` is matched by the
later batch and survives a pass at time 9 unchanged. -/
theorem C7_witness :
    ((storeKeys ([("alpha", ⟨"Alpha", "/games/alpha", "i", 1⟩)] : Store)).Nodup ∧
      (validIds prime_game_id [⟨"Alpha", "/games/alpha", "i"⟩]).Nodup ∧
      ("alpha", (⟨"Alpha", "/games/alpha", "i", 1⟩ : GameRecord)) ∈
        ([("alpha", ⟨"Alpha", "/games/alpha", "i", 1⟩)] : Store) ∧
      "alpha" ∈ validIds prime_game_id [⟨"Alpha", "/games/alpha", "i"⟩]) ∧
    (("alpha", (⟨"Alpha", "/games/alpha", "i", 1⟩ : GameRecord)) ∈
        (reconcile prime_game_id 9 [("alpha", ⟨"Alpha", "/games/alpha", "i", 1⟩)]
          [⟨"Alpha", "/games/alpha", "i"⟩]).store ∧
      "alpha" ∉ (reconcile prime_game_id 9
          [("alpha", ⟨"Alpha", "/games/alpha", "i", 1⟩)]
          [⟨"Alpha", "/games/alpha", "i"⟩]).removed ∧
      ∀ r ∈ (reconcile prime_game_id 9
          [("alpha", ⟨"Alpha", "/games/alpha", "i", 1⟩)]
          [⟨"Alpha", "/games/alpha", "i"⟩]).notify,
        prime_game_id ⟨r.title, r.url, r.imageUrl⟩ ≠ "alpha") :=
  ⟨⟨by decide, by decide, by decide, by decide⟩,
    C7_match_is_noop prime_game_id 9 [("alpha", ⟨"Alpha", "/games/alpha", "i", 1⟩)]
      [⟨"Alpha", "/games/alpha", "i"⟩] "alpha" ⟨"Alpha", "/games/alpha", "i", 1⟩
      (by decide) (by decide) (by decide) (by decide)⟩


/-- C8: for a count sequence that strictly increases for N iterations
(from the zero baseline) and then plateaus, both scroll loops execute
exactly min (N + 1) cap iterations: they stop at the first
non-increasing observation, or at the cap when that comes first. -/
theorem C8_scroll_termination (counts : Nat → Nat) (N cap : Nat) (hN : 0 < N)
    (h0 : 0 < counts 0) (hinc : ∀ i, i + 1 < N → counts i < counts (i + 1))
    (hplat : ∀ i, N ≤ i → counts i = counts (N - 1)) :
    scroll_until_stable_iters counts cap = min (N + 1) cap ∧
      natural_scroll_iters counts cap = min (N + 1) cap := by
  constructor
  · have h := scroll_until_stable_loop_formula counts N hN h0 hinc hplat cap 0 (Nat.zero_le N)
    simpa [scroll_until_stable_iters, scrollPrev] using h
  · have h := natural_scroll_loop_formula counts N hN h0 hinc hplat cap 0 (Nat.zero_le N)
    simpa [natural_scroll_iters, scrollPrev] using h

/-- C8 witness: counts 1, 2, 3, 3, 3, ... increase for three iterations
and plateau; with cap 30 both loops stop after exactly 4 iterations. -/
theorem C8_witness :
    (0 < 3 ∧ 0 < min (0 + 1) 3 ∧
      (∀ i, i + 1 < 3 → min (i + 1) 3 < min (i + 1 + 1) 3) ∧
      (∀ i, 3 ≤ i → min (i + 1) 3 = min (3 - 1 + 1) 3)) ∧
    (scroll_until_stable_iters (fun i => min (i + 1) 3) 30 = min (3 + 1) 30 ∧
      natural_scroll_iters (fun i => min (i + 1) 3) 30 = min (3 + 1) 30) :=
  ⟨⟨by decide, by decide,
      fun i hi => by show min (i + 1) 3 < min (i + 1 + 1) 3; omega,
      fun i hi => by show min (i + 1) 3 = min (3 - 1 + 1) 3; omega⟩,
    C8_scroll_termination (fun i => min (i + 1) 3) 3 30 (by decide) (by decide)
      (fun i hi => by show min (i + 1) 3 < min (i + 1 + 1) 3; omega)
      (fun i hi => by show min (i + 1) 3 = min (3 - 1 + 1) 3; omega)⟩

/-- When the counter admits a positive number of sends, the truncated
subscriber list handed to the send loop is nonempty. -/
theorem subs2_ne_nil (subs : List Subscriber) (counter : Nat)
    (h : (mail_counter_increment counter subs.length).1 ≠ 0) :
    (if (mail_counter_increment counter subs.length).2.2 then subs
      else subs.take (mail_counter_increment counter subs.length).1) ≠ [] := by
  by_cases hs : subs = []
  · subst hs
    simp [mail_counter_increment] at h
  · by_cases hall : (mail_counter_increment counter subs.length).2.2
    · simp only [if_pos hall]
      exact hs
    · simp only [if_neg hall]
      intro hnil
      rcases List.take_eq_nil_iff.mp hnil with h0 | h0
      · exact h h0
      · exact hs h0

/-- C9 counterexample: one new game, one eligible subscriber, counter at
zero, but the Gmail credentials are missing: `send_new_games_email`
returns without dispatching anything, yet the run still advances
`last_run_time` from 0 to 7. -/
theorem C9_counterexample :
    (run_new_games_newsletter 0 7 [("g", ⟨"T", "u", "i", 5⟩)] [] []
        [⟨"a@b", true⟩] false 0).dispatched = 0 ∧
      (run_new_games_newsletter 0 7 [("g", ⟨"T", "u", "i", 5⟩)] [] []
        [⟨"a@b", true⟩] false 0).lastRun = 7 ∧ (7 : Nat) ≠ 0 := by
  decide

/-- C9 (amended): the delta is built from the checkpoint read before the
run, and the checkpoint is advanced iff the delta is nonempty and the
monthly counter admits at least one send; this is independent of whether
any email is actually dispatched, so a run whose only sends fail still
advances the checkpoint, while runs with no new games, no eligible
subscribers, or a zero allowance leave it unchanged. -/
theorem C9_checkpoint_update (oldLastRun now : Nat) (prime epic gog : Store)
    (subs : List Subscriber) (credsOk : Bool) (counter : Nat) :
    (run_new_games_newsletter oldLastRun now prime epic gog subs credsOk counter).lastRun =
      if (build_new_games_pick oldLastRun prime = [] ∧
            build_new_games_pick oldLastRun epic = [] ∧
            build_new_games_pick oldLastRun gog = []) ∨
          (mail_counter_increment counter subs.length).1 = 0
        then oldLastRun else now := by
  by_cases h1 : build_new_games_pick oldLastRun prime = [] ∧
      build_new_games_pick oldLastRun epic = [] ∧
      build_new_games_pick oldLastRun gog = []
  · simp [run_new_games_newsletter, h1]
  · by_cases h2 : (mail_counter_increment counter subs.length).1 = 0
    · simp [run_new_games_newsletter, h1, h2]
    · have hne := subs2_ne_nil subs counter h2
      simp [run_new_games_newsletter, h1, h2, hne]

/-- C10: on a gog.py run whose reconciliation queued at least one new
game, the success path emails the game list and the cleanup block emails
the same list again with identical content; on a failed run (exception
after the Firestore update) the cleanup still emails the list, in
addition to the error email. -/
theorem C10_gog_double_email (cards : List Candidate) (now : Nat) (store : Store)
    (hnew : (reconcile gog_game_id now store cards).notify ≠ []) :
    (scrape_gog (GogFetch.loaded cards) false now store).emails =
        [⟨"GOG Free Games Scraper Notification",
            html_game_list (reconcile gog_game_id now store cards).notify⟩,
          ⟨"GOG Scraper Notification",
            html_game_list (reconcile gog_game_id now store cards).notify⟩] ∧
      (scrape_gog (GogFetch.loaded cards) true now store).emails =
        [⟨"GOG Scraper Error", "GOG scraper encountered an error"⟩,
          ⟨"GOG Scraper Notification",
            html_game_list (reconcile gog_game_id now store cards).notify⟩] := by
  constructor
  · simp [scrape_gog, hnew]
  · simp [scrape_gog, hnew]

/-- C10 witness: one new giveaway card on an empty store. -/
theorem C10_witness :
    (reconcile gog_game_id 4 [] [⟨"New Game", "/giveaway/new-game", "img"⟩]).notify ≠ [] ∧
    ((scrape_gog (GogFetch.loaded [⟨"New Game", "/giveaway/new-game", "img"⟩]) false 4 []).emails =
        [⟨"GOG Free Games Scraper Notification",
            html_game_list (reconcile gog_game_id 4 []
              [⟨"New Game", "/giveaway/new-game", "img"⟩]).notify⟩,
          ⟨"GOG Scraper Notification",
            html_game_list (reconcile gog_game_id 4 []
              [⟨"New Game", "/giveaway/new-game", "img"⟩]).notify⟩] ∧
      (scrape_gog (GogFetch.loaded [⟨"New Game", "/giveaway/new-game", "img"⟩]) true 4 []).emails =
        [⟨"GOG Scraper Error", "GOG scraper encountered an error"⟩,
          ⟨"GOG Scraper Notification",
            html_game_list (reconcile gog_game_id 4 []
              [⟨"New Game", "/giveaway/new-game", "img"⟩]).notify⟩]) :=
  ⟨by decide,
    C10_gog_double_email [⟨"New Game", "/giveaway/new-game", "img"⟩] 4 [] (by decide)⟩

end AllTheFreeGames
